import Mathlib

/-!
Verification of the irregular-to-grid spatial matching core of the SEGY_tools
repository against its specification.

Coordinates are modelled as exact rationals (the source holds them in float64
arrays, read from integer SEGY header fields).  Euclidean distances enter the
source only through comparisons and argmin, both of which are invariant under
squaring, so distances are carried in squared form (`dist2`).

Embedded source functions:
* `sort_shots_from_right_bottom_to_left_top`, `match_shots_to_grid`
  from G_shot_match.py (the Sequential Unique Matcher);
* `regularize_coordinates` from F_receivers_regularize.py (the Grid
  Synthesizer), together with its final integer check `allIntegerCheck`;
* the receiver offset-align matching core of `process_segy_file` from
  H_receivers_match.py (`matchWithOffset`).
-/

/-- A 2-D point, as one row of the coordinate arrays in the source. -/
abbrev Point := ℚ × ℚ

/-- Squared Euclidean distance between two points.  The source computes
`cdist(..., 'euclidean')`; since the square root is monotone, all of its
comparisons and argmins are faithfully represented on squares. -/
def dist2 (p q : Point) : ℚ := (p.1 - q.1) ^ 2 + (p.2 - q.2) ^ 2

/-- Python `int(...)` / numpy int32 conversion: truncation toward zero. -/
def pyTrunc (q : ℚ) : ℤ := if 0 ≤ q then ⌊q⌋ else ⌈q⌉

/-- Python / numpy `round(...)`: round half to even (banker's rounding). -/
def pyRound (q : ℚ) : ℤ :=
  if q - (⌊q⌋ : ℚ) < 1/2 then ⌊q⌋
  else if (1/2 : ℚ) < q - (⌊q⌋ : ℚ) then ⌊q⌋ + 1
  else if ⌊q⌋ % 2 = 0 then ⌊q⌋ else ⌊q⌋ + 1

/-! ### G_shot_match.py : the Sequential Unique Matcher -/

/-- The processing order of `np.lexsort((-x, -y))` (G_shot_match.py line 66):
`p` comes no later than `q` iff `p` has larger y, or equal y and
larger-or-equal x. -/
def shotR (p q : Point) : Prop := q.2 < p.2 ∨ (p.2 = q.2 ∧ q.1 ≤ p.1)

instance : DecidableRel shotR := fun p q => by unfold shotR; infer_instance

instance : IsTotal Point shotR := by
  constructor
  intro p q
  rcases lt_trichotomy p.2 q.2 with h | h | h
  · exact Or.inr (Or.inl h)
  · rcases le_total p.1 q.1 with hx | hx
    · exact Or.inr (Or.inr ⟨h.symm, hx⟩)
    · exact Or.inl (Or.inr ⟨h, hx⟩)
  · exact Or.inl (Or.inl h)

instance : IsTrans Point shotR := by
  constructor
  rintro p q r (h1 | ⟨h1, h1x⟩) (h2 | ⟨h2, h2x⟩)
  · exact Or.inl (h2.trans h1)
  · exact Or.inl (h2 ▸ h1)
  · exact Or.inl (h1 ▸ h2)
  · exact Or.inr ⟨h1.trans h2, h2x.trans h1x⟩

/-- G_shot_match.py lines 64-67: `np.lexsort((-x, -y))` is a stable sort by
descending y, then descending x; a stable sort is modelled by insertion
sort with the total preorder `shotR`. -/
def sort_shots_from_right_bottom_to_left_top (shot_points : List Point) : List Point :=
  shot_points.insertionSort shotR

/-- First index (in the order of `idxs`) whose grid point minimises the
distance to `shot`, as `np.argmin` over `cdist([shot], grid_points[idxs])`:
`np.argmin` returns the first occurrence of the minimum. -/
def bestIdx (shot : Point) (grid : List Point) : List ℕ → Option ℕ
  | [] => none
  | i :: rest =>
    match bestIdx shot grid rest with
    | none => some i
    | some j =>
      if dist2 shot (grid.getD i (0, 0)) ≤ dist2 shot (grid.getD j (0, 0)) then some i
      else some j

/-- The indices of the still-unmatched grid points, in ascending order:
`np.where(~matched_grid)[0]` (G_shot_match.py line 91). -/
def unconsumed (mask : List Bool) : List ℕ :=
  (List.range mask.length).filter fun i => mask.getD i true = false

/-- The loop state of `match_shots_to_grid`: the association list backing the
`shot_to_grid` dict (storing the chosen global grid index), the boolean
mask `matched_grid`, and the `matched_shots` list of claimed grid nodes. -/
structure MS where
  assign : List (Point × ℕ)
  mask : List Bool
  nodes : List Point
deriving Repr, DecidableEq

/-- Initial loop state of G_shot_match.py lines 78-80. -/
def initState (grid : List Point) : MS :=
  ⟨[], List.replicate grid.length false, []⟩

/-- One iteration of the matching loop (G_shot_match.py lines 83-97): find the
nearest unconsumed grid node; if one exists and its Euclidean distance is at
most `maxD` (on squares: `0 ≤ maxD ∧ dist2 ≤ maxD²`), record the pair, mark
the node consumed, and append the node to `matched_shots`; otherwise leave
the state unchanged. -/
def matchStep (grid : List Point) (maxD : ℚ) (st : MS) (shot : Point) : MS :=
  match bestIdx shot grid (unconsumed st.mask) with
  | none => st
  | some j =>
    if 0 ≤ maxD ∧ dist2 shot (grid.getD j (0, 0)) ≤ maxD ^ 2 then
      ⟨st.assign ++ [(shot, j)], st.mask.set j true, st.nodes ++ [grid.getD j (0, 0)]⟩
    else st

/-- The full matching loop of G_shot_match.py lines 69-99, before the final
return. -/
def matchRun (shot_points grid : List Point) (maxD : ℚ) : MS :=
  (sort_shots_from_right_bottom_to_left_top shot_points).foldl
    (matchStep grid maxD) (initState grid)

/-- G_shot_match.py `match_shots_to_grid`: returns the `shot_to_grid`
mapping (as an association list in insertion order, values being the
claimed grid nodes) and the `matched_shots` array.  No unmatched-point
collection is part of the return value. -/
def match_shots_to_grid (shot_points grid : List Point) (maxD : ℚ) :
    List (Point × Point) × List Point :=
  let res := matchRun shot_points grid maxD
  (res.assign.map fun sj => (sj.1, grid.getD sj.2 (0, 0)), res.nodes)




/-- The state invariant of the matching loop: the mask tracks the grid
length, every recorded pair holds a valid consumed grid index, and no grid
index is recorded twice. -/
def LoopInv (grid : List Point) (st : MS) : Prop :=
  st.mask.length = grid.length ∧
  (∀ pr ∈ st.assign, pr.2 < grid.length ∧ st.mask.getD pr.2 false = true) ∧
  (st.assign.map Prod.snd).Nodup

/-! ### F_receivers_regularize.py : the Grid Synthesizer -/

/-- Minimum of a list of rationals with accumulator, as `np.min`. -/
def qmin : List ℚ → ℚ → ℚ
  | [], a => a
  | b :: l, a => qmin l (min a b)

/-- Maximum of a list of rationals with accumulator, as `np.max`. -/
def qmax : List ℚ → ℚ → ℚ
  | [], a => a
  | b :: l, a => qmax l (max a b)

/-- `np.min(coords[:, 0])` (F_receivers_regularize.py line 65); 0 on the
empty set, on which the source would fail. -/
def xMin : List Point → ℚ
  | [] => 0
  | p :: r => qmin (r.map Prod.fst) p.1

/-- `np.max(coords[:, 0])`. -/
def xMax : List Point → ℚ
  | [] => 0
  | p :: r => qmax (r.map Prod.fst) p.1

/-- `np.min(coords[:, 1])`. -/
def yMin : List Point → ℚ
  | [] => 0
  | p :: r => qmin (r.map Prod.snd) p.2

/-- `np.max(coords[:, 1])`. -/
def yMax : List Point → ℚ
  | [] => 0
  | p :: r => qmax (r.map Prod.snd) p.2

/-- `cols = int(round((x_max - x_min) / col_spacing)) + 1`
(F_receivers_regularize.py line 69); the rounded value is non-negative for
positive spacing, so the `toNat` is exact. -/
def colsOf (coords : List Point) (col_spacing : ℚ) : ℕ :=
  (pyRound ((xMax coords - xMin coords) / col_spacing)).toNat + 1

/-- `rows = int(round((y_max - y_min) / row_spacing)) + 1` (line 70). -/
def rowsOf (coords : List Point) (row_spacing : ℚ) : ℕ :=
  (pyRound ((yMax coords - yMin coords) / row_spacing)).toNat + 1

/-- The x array of F_receivers_regularize.py line 87:
`np.array([start_x + i * col_spacing for i in range(cols)], dtype=np.int32)`
with `start_x = int(x_min)`; the int32 conversion truncates toward zero. -/
def gridXs (coords : List Point) (col_spacing : ℚ) : List ℤ :=
  (List.range (colsOf coords col_spacing)).map fun (i : ℕ) =>
    pyTrunc ((pyTrunc (xMin coords) : ℚ) + (i : ℚ) * col_spacing)

/-- The y array of line 88, with `start_y = int(y_min)`. -/
def gridYs (coords : List Point) (row_spacing : ℚ) : List ℤ :=
  (List.range (rowsOf coords row_spacing)).map fun (i : ℕ) =>
    pyTrunc ((pyTrunc (yMin coords) : ℚ) + (i : ℚ) * row_spacing)

/-- `np.meshgrid(x, y)` followed by
`np.column_stack((X.ravel(), Y.ravel()))` (lines 89-92): the node at flat
index `r * cols + c` is `(x[c], y[r])`. -/
def gridNodes (xs ys : List ℤ) : List Point :=
  (ys.map fun (y : ℤ) => xs.map fun (x : ℤ) => ((x : ℚ), (y : ℚ))).flatten

/-- The grid-producing core of F_receivers_regularize.py
`regularize_coordinates` (lines 64-92): the `reg_coords` array. -/
def regularize_coordinates (coords : List Point) (row_spacing col_spacing : ℚ) :
    List Point :=
  gridNodes (gridXs coords col_spacing) (gridYs coords row_spacing)

/-- The integer validation of F_receivers_regularize.py line 101:
`np.all(reg_coords == reg_coords.astype(np.int32))`; the `ValueError`
is raised exactly when this is `false`. -/
def allIntegerCheck (g : List Point) : Bool :=
  g.all fun p =>
    decide (p.1 = ((pyTrunc p.1 : ℤ) : ℚ)) && decide (p.2 = ((pyTrunc p.2 : ℤ) : ℚ))

/-- The lattice described by the Grid Synthesizer contract in the spec
(section 4.2), written from the spec words for comparison with
`regularize_coordinates`: `cols = round((xmax - xmin) / colSpacing) + 1`,
`rows = round((ymax - ymin) / rowSpacing) + 1`, anchor
`(ox, oy) = (floor(xmin), floor(ymin))`, nodes `ox + c*colSpacing`,
`oy + r*rowSpacing` for `0 ≤ r < rows`, `0 ≤ c < cols`. -/
def specSynthGrid (coords : List Point) (row_spacing col_spacing : ℚ) : List Point :=
  ((List.range (rowsOf coords row_spacing)).map fun (r : ℕ) =>
    (List.range (colsOf coords col_spacing)).map fun (c : ℕ) =>
      ((⌊xMin coords⌋ : ℚ) + (c : ℚ) * col_spacing,
       (⌊yMin coords⌋ : ℚ) + (r : ℚ) * row_spacing)).flatten

/-- Bounding-box containment: the bounding box of `g` contains the bounding
box of `ref` (both lists non-empty in every use). -/
def bboxContains (g ref : List Point) : Prop :=
  xMin g ≤ xMin ref ∧ xMax ref ≤ xMax g ∧ yMin g ≤ yMin ref ∧ yMax ref ≤ yMax g




/-! ### H_receivers_match.py : the Offset-Align Matcher -/

/-- Arithmetic-mean centroid of a point list, as `np.mean(..., axis=0)`
(H_receivers_match.py lines 88 and 124). -/
def centroid (l : List Point) : Point :=
  ((l.map Prod.fst).sum / (l.length : ℚ), (l.map Prod.snd).sum / (l.length : ℚ))

/-- Shift a point by an integer offset (H_receivers_match.py lines 134-135). -/
def shiftBy (off : ℤ × ℤ) (p : Point) : Point :=
  (p.1 + (off.1 : ℚ), p.2 + (off.2 : ℚ))

/-- Index into `grid` of the node nearest to `p`, as the static
`cKDTree(grid_points).query` of H_receivers_match.py lines 144-145 (first
minimising index; `0` is never used when the grid is non-empty). -/
def nearestIdx (grid : List Point) (p : Point) : ℕ :=
  (bestIdx p grid (List.range grid.length)).getD 0

/-- The grid node nearest to `p`. -/
def nearestNode (grid : List Point) (p : Point) : Point :=
  grid.getD (nearestIdx grid p) (0, 0)

/-- The receiver-matching core of H_receivers_match.py `process_segy_file`
(lines 122-158): compute the rounded centroid offset
`offset = np.round(grid_center - orig_center).astype(int)`, shift every
movable point by it, map each shifted point to its nearest grid node with a
static index over the full grid (no removal), and collect the per-point
nearest-neighbor distances (squared here) that feed `max_dist`/`mean_dist`.
Returns `(offset, receiver_to_grid pairs, distances)`. -/
def matchWithOffset (movable grid : List Point) :
    (ℤ × ℤ) × List (Point × Point) × List ℚ :=
  let off : ℤ × ℤ :=
    (pyRound ((centroid grid).1 - (centroid movable).1),
     pyRound ((centroid grid).2 - (centroid movable).2))
  let shifted := movable.map (shiftBy off)
  (off,
   shifted.map fun p => (p, nearestNode grid p),
   shifted.map fun p => dist2 p (nearestNode grid p))


/-! ### Lemmas about the Sequential Unique Matcher -/

/-- Ceiling as negated floor, so that concrete ceilings evaluate through the
floor-evaluation of norm_num. -/
lemma ceil_eq_neg_floor (q : ℚ) : ⌈q⌉ = -⌊-q⌋ := by
  rw [Int.floor_neg, neg_neg]

/-- Evaluation of Int.toNat on numeric literals. -/
lemma intToNatLit (n : ℕ) : (no_index (OfNat.ofNat n) : ℤ).toNat = OfNat.ofNat n := rfl

lemma bestIdx_eq_none {s : Point} {g : List Point} :
    ∀ {idxs : List ℕ}, bestIdx s g idxs = none ↔ idxs = [] := by
  intro idxs
  induction idxs with
  | nil => simp [bestIdx]
  | cons i rest ih =>
    cases hb : bestIdx s g rest with
    | none => simp [bestIdx, hb]
    | some k => simp only [bestIdx, hb]; split <;> simp

lemma bestIdx_mem {s : Point} {g : List Point} :
    ∀ {idxs : List ℕ} {j : ℕ}, bestIdx s g idxs = some j → j ∈ idxs := by
  intro idxs
  induction idxs with
  | nil => intro j h; simp [bestIdx] at h
  | cons i rest ih =>
    intro j h
    cases hb : bestIdx s g rest with
    | none => simp [bestIdx, hb] at h; simp [h]
    | some k =>
      simp only [bestIdx, hb] at h
      split at h
      · simp at h; simp [h]
      · simp at h; subst h; exact List.mem_cons_of_mem _ (ih hb)

lemma bestIdx_min {s : Point} {g : List Point} :
    ∀ {idxs : List ℕ} {j : ℕ}, bestIdx s g idxs = some j →
      ∀ i ∈ idxs, dist2 s (g.getD j (0,0)) ≤ dist2 s (g.getD i (0,0)) := by
  intro idxs
  induction idxs with
  | nil => intro j h; simp [bestIdx] at h
  | cons i rest ih =>
    intro j h m hm
    cases hb : bestIdx s g rest with
    | none =>
      simp only [bestIdx, hb] at h
      simp at h
      have : rest = [] := bestIdx_eq_none.mp hb
      subst this
      simp at hm
      simp [h, hm]
    | some k =>
      simp only [bestIdx, hb] at h
      rcases List.mem_cons.mp hm with rfl | hm
      · split_ifs at h with hc <;> simp at h <;> subst h
        · exact le_refl _
        · exact le_of_not_le hc
      · split_ifs at h with hc <;> simp at h <;> subst h
        · exact le_trans hc (ih hb m hm)
        · exact ih hb m hm

lemma bestIdx_tie {s : Point} {g : List Point} :
    ∀ {idxs : List ℕ} {j : ℕ}, idxs.Pairwise (· < ·) → bestIdx s g idxs = some j →
      ∀ i ∈ idxs, dist2 s (g.getD i (0,0)) = dist2 s (g.getD j (0,0)) → j ≤ i := by
  intro idxs
  induction idxs with
  | nil => intro j _ h; simp [bestIdx] at h
  | cons i rest ih =>
    intro j hp h m hm heq
    have hpr : rest.Pairwise (· < ·) := (List.pairwise_cons.mp hp).2
    have hlt : ∀ x ∈ rest, i < x := (List.pairwise_cons.mp hp).1
    cases hb : bestIdx s g rest with
    | none =>
      have : rest = [] := bestIdx_eq_none.mp hb
      subst this
      simp only [bestIdx] at h
      simp at h
      subst h
      simp at hm
      simp [hm]
    | some k =>
      simp only [bestIdx, hb] at h
      rcases List.mem_cons.mp hm with rfl | hm
      · split_ifs at h with hc <;> simp at h <;> subst h
        · exact le_refl _
        · exact absurd (le_of_eq heq) hc
      · split_ifs at h with hc <;> simp at h <;> subst h
        · exact le_of_lt (hlt m hm)
        · exact ih hpr hb m hm heq

lemma mem_unconsumed {mask : List Bool} {i : ℕ} :
    i ∈ unconsumed mask ↔ i < mask.length ∧ mask.getD i true = false := by
  simp [unconsumed, List.mem_filter, List.mem_range]

lemma unconsumed_pairwise (mask : List Bool) : (unconsumed mask).Pairwise (· < ·) :=
  (List.pairwise_lt_range _).sublist (List.filter_sublist _)

lemma matchStep_none {grid : List Point} {maxD : ℚ} {st : MS} {shot : Point}
    (h : bestIdx shot grid (unconsumed st.mask) = none) :
    matchStep grid maxD st shot = st := by
  unfold matchStep
  rw [h]

lemma matchStep_some {grid : List Point} {maxD : ℚ} {st : MS} {shot : Point} {j : ℕ}
    (h : bestIdx shot grid (unconsumed st.mask) = some j) :
    matchStep grid maxD st shot =
      if 0 ≤ maxD ∧ dist2 shot (grid.getD j (0,0)) ≤ maxD ^ 2 then
        ⟨st.assign ++ [(shot, j)], st.mask.set j true, st.nodes ++ [grid.getD j (0,0)]⟩
      else st := by
  unfold matchStep
  rw [h]

lemma matchStep_cases (grid : List Point) (maxD : ℚ) (st : MS) (shot : Point) :
    (matchStep grid maxD st shot = st ∧
      ∀ j ∈ unconsumed st.mask, ¬ (0 ≤ maxD ∧ dist2 shot (grid.getD j (0,0)) ≤ maxD ^ 2)) ∨
    (∃ j, bestIdx shot grid (unconsumed st.mask) = some j ∧
      (0 ≤ maxD ∧ dist2 shot (grid.getD j (0,0)) ≤ maxD ^ 2) ∧
      matchStep grid maxD st shot =
        ⟨st.assign ++ [(shot, j)], st.mask.set j true, st.nodes ++ [grid.getD j (0,0)]⟩) := by
  cases hb : bestIdx shot grid (unconsumed st.mask) with
  | none =>
    left
    refine ⟨matchStep_none hb, ?_⟩
    intro j hj
    rw [bestIdx_eq_none.mp hb] at hj
    simp at hj
  | some k =>
    by_cases hc : 0 ≤ maxD ∧ dist2 shot (grid.getD k (0,0)) ≤ maxD ^ 2
    · right
      refine ⟨k, rfl, hc, ?_⟩
      rw [matchStep_some hb, if_pos hc]
    · left
      refine ⟨by rw [matchStep_some hb, if_neg hc], ?_⟩
      intro j hj hcond
      exact hc ⟨hcond.1, le_trans (bestIdx_min hb j hj) hcond.2⟩

lemma LoopInv_init (grid : List Point) : LoopInv grid (initState grid) := by
  refine ⟨by simp [initState], by simp [initState], by simp [initState]⟩

lemma getD_eq_of_lt {α : Type} {l : List α} {j : ℕ} (h : j < l.length) (d₁ d₂ : α) :
    l.getD j d₁ = l.getD j d₂ := by
  rw [List.getD_eq_getElem?_getD, List.getD_eq_getElem?_getD, List.getElem?_eq_getElem h]
  rfl

lemma LoopInv_step {grid : List Point} {maxD : ℚ} {st : MS} (shot : Point)
    (h : LoopInv grid st) : LoopInv grid (matchStep grid maxD st shot) := by
  rcases matchStep_cases grid maxD st shot with ⟨heq, -⟩ | ⟨j, hb, -, heq⟩
  · rw [heq]; exact h
  · rw [heq]
    obtain ⟨hlen, hmem, hnd⟩ := h
    have hj := mem_unconsumed.mp (bestIdx_mem hb)
    have hjlen : j < grid.length := hlen ▸ hj.1
    have hjfalse : st.mask.getD j false = false :=
      (getD_eq_of_lt hj.1 false true).trans hj.2
    refine ⟨by simp [hlen], ?_, ?_⟩
    · intro pr hpr
      rcases List.mem_append.mp hpr with hpr | hpr
      · obtain ⟨h1, h2⟩ := hmem pr hpr
        have hne : pr.2 ≠ j := by
          intro hpj
          rw [hpj, hjfalse] at h2
          exact Bool.false_ne_true h2
        refine ⟨h1, ?_⟩
        rw [List.getD_eq_getElem?_getD, List.getElem?_set_ne (Ne.symm hne),
          ← List.getD_eq_getElem?_getD]
        exact h2
      · simp at hpr
        rw [hpr]
        refine ⟨hjlen, ?_⟩
        rw [List.getD_eq_getElem?_getD, List.getElem?_set_self hj.1]
        rfl
    · rw [List.map_append, List.nodup_append]
      refine ⟨hnd, by simp, ?_⟩
      intro a ha hb2
      simp at hb2
      subst hb2
      rcases List.mem_map.mp ha with ⟨pr, hpr, hpj⟩
      have h2 := (hmem pr hpr).2
      rw [hpj, hjfalse] at h2
      exact Bool.false_ne_true h2

lemma LoopInv_foldl {grid : List Point} {maxD : ℚ} :
    ∀ (l : List Point) (st : MS), LoopInv grid st →
      LoopInv grid (l.foldl (matchStep grid maxD) st) := by
  intro l
  induction l with
  | nil => intro st h; exact h
  | cons s rest ih => intro st h; exact ih _ (LoopInv_step s h)

lemma LoopInv_run (shots grid : List Point) (maxD : ℚ) :
    LoopInv grid (matchRun shots grid maxD) :=
  LoopInv_foldl _ _ (LoopInv_init grid)

/-- C1: in the mapping returned by the Sequential Unique Matcher
`match_shots_to_grid`, no grid node is the assigned target of two distinct
source points, for every source point set, every grid (a Grid in the sense
of the data model, i.e. with pairwise-distinct nodes), and every positive
`maxDistance`. -/
theorem C1_assignment_injective (shots grid : List Point) (maxD : ℚ)
    (hgrid : grid.Nodup) (hmax : 0 < maxD) (s₁ s₂ n : Point)
    (h₁ : (s₁, n) ∈ (match_shots_to_grid shots grid maxD).1)
    (h₂ : (s₂, n) ∈ (match_shots_to_grid shots grid maxD).1) :
    s₁ = s₂ := by
  obtain ⟨hlen, hmem, hnd⟩ := LoopInv_run shots grid maxD
  simp only [match_shots_to_grid] at h₁ h₂
  rcases List.mem_map.mp h₁ with ⟨pr₁, hpr₁, he₁⟩
  rcases List.mem_map.mp h₂ with ⟨pr₂, hpr₂, he₂⟩
  have hl₁ : pr₁.2 < grid.length := (hmem pr₁ hpr₁).1
  have hl₂ : pr₂.2 < grid.length := (hmem pr₂ hpr₂).1
  have hn₁ : grid.getD pr₁.2 (0,0) = n := congrArg Prod.snd he₁
  have hn₂ : grid.getD pr₂.2 (0,0) = n := congrArg Prod.snd he₂
  have hg₁ : grid.getD pr₁.2 (0,0) = grid[pr₁.2] := by
    rw [List.getD_eq_getElem?_getD, List.getElem?_eq_getElem hl₁]; rfl
  have hg₂ : grid.getD pr₂.2 (0,0) = grid[pr₂.2] := by
    rw [List.getD_eq_getElem?_getD, List.getElem?_eq_getElem hl₂]; rfl
  have hidx : pr₁.2 = pr₂.2 := by
    have : grid[pr₁.2] = grid[pr₂.2] := by rw [← hg₁, ← hg₂, hn₁, hn₂]
    exact hgrid.getElem_inj_iff.mp this
  have : pr₁ = pr₂ := List.inj_on_of_nodup_map hnd hpr₁ hpr₂ hidx
  have hs₁ : pr₁.1 = s₁ := congrArg Prod.fst he₁
  have hs₂ : pr₂.1 = s₂ := congrArg Prod.fst he₂
  rw [← hs₁, ← hs₂, this]

/-- Witness for C1 at a concrete input. -/
theorem C1_assignment_injective_witness :
    ([((0:ℚ),(0:ℚ))] : List Point).Nodup ∧ (0:ℚ) < 1 ∧
    (((0,0),(0,0)) : Point × Point) ∈ (match_shots_to_grid [(0,0)] [(0,0)] 1).1 ∧
    (((0:ℚ),(0:ℚ)) : Point) = ((0:ℚ),(0:ℚ)) := by
  have hm : (((0,0),(0,0)) : Point × Point) ∈ (match_shots_to_grid [(0,0)] [(0,0)] 1).1 := by
    norm_num [match_shots_to_grid, matchRun, initState, matchStep, bestIdx, unconsumed,
      sort_shots_from_right_bottom_to_left_top, List.insertionSort, List.orderedInsert,
      shotR, dist2]
  exact ⟨by decide, by decide, hm,
    C1_assignment_injective [(0,0)] [(0,0)] 1 (by decide) (by decide) _ _ _ hm hm⟩

/-- C3: `sort_shots_from_right_bottom_to_left_top` returns exactly the
ordering of the source points by descending Y coordinate, breaking ties by
descending X coordinate: the output is a permutation of the input and is
pairwise ordered by that key (equal points being indistinguishable, this
characterises the ordering exactly). -/
theorem C3_sort_descending_y_then_x (shots : List Point) :
    (sort_shots_from_right_bottom_to_left_top shots).Perm shots ∧
    (sort_shots_from_right_bottom_to_left_top shots).Pairwise
      (fun p q => q.2 < p.2 ∨ (p.2 = q.2 ∧ q.1 ≤ p.1)) :=
  ⟨List.perm_insertionSort shotR shots, List.sorted_insertionSort shotR shots⟩

lemma foldl_assign_mem {grid : List Point} {maxD : ℚ} :
    ∀ (l : List Point) (st : MS),
      ∀ pr ∈ (l.foldl (matchStep grid maxD) st).assign, pr ∈ st.assign ∨ pr.1 ∈ l := by
  intro l
  induction l with
  | nil => intro st pr hpr; exact Or.inl hpr
  | cons s rest ih =>
    intro st pr hpr
    rcases ih (matchStep grid maxD st s) pr hpr with h | h
    · rcases matchStep_cases grid maxD st s with ⟨heq, -⟩ | ⟨j, -, -, heq⟩
      · rw [heq] at h; exact Or.inl h
      · rw [heq] at h
        rcases List.mem_append.mp h with h | h
        · exact Or.inl h
        · simp at h
          right
          rw [h]
          exact List.mem_cons_self _ _
    · exact Or.inr (List.mem_cons_of_mem _ h)

lemma foldl_nodes_eq {grid : List Point} {maxD : ℚ} :
    ∀ (l : List Point) (st : MS),
      st.nodes = st.assign.map (fun sj => grid.getD sj.2 (0,0)) →
      (l.foldl (matchStep grid maxD) st).nodes =
        (l.foldl (matchStep grid maxD) st).assign.map (fun sj => grid.getD sj.2 (0,0)) := by
  intro l
  induction l with
  | nil => intro st h; exact h
  | cons s rest ih =>
    intro st h
    refine ih _ ?_
    rcases matchStep_cases grid maxD st s with ⟨heq, -⟩ | ⟨j, -, -, heq⟩
    · rw [heq]; exact h
    · rw [heq]
      simp [h]

/-- C8 (amended): the Sequential Unique Matcher returns only the Assignment
and the array of assigned grid nodes; the second returned component is
exactly the list of the Assignment's target nodes (in processing order), and
every key of the Assignment is a source point — no separate unmatched
collection is part of the return value, so unmatched points must be
recovered by the caller as the source points missing from the keys. -/
theorem C8_amended_no_unmatched_output (shots grid : List Point) (maxD : ℚ) :
    (match_shots_to_grid shots grid maxD).2 =
      (match_shots_to_grid shots grid maxD).1.map Prod.snd ∧
    ∀ pr ∈ (match_shots_to_grid shots grid maxD).1, pr.1 ∈ shots := by
  constructor
  · simp only [match_shots_to_grid, matchRun]
    rw [foldl_nodes_eq _ _ (by simp [initState])]
    rw [List.map_map]
    rfl
  · intro pr hpr
    simp only [match_shots_to_grid] at hpr
    rcases List.mem_map.mp hpr with ⟨sj, hsj, he⟩
    have := foldl_assign_mem _ _ sj hsj
    simp [initState, matchRun] at this
    have hs : sj.1 = pr.1 := congrArg Prod.fst he
    rw [← hs]
    exact (List.perm_insertionSort shotR shots).subset this

/-- C8 counterexample: on shots {(0,0),(5,5)}, grid {(0,0)}, maxDistance 1,
the source point (5,5) is unmatched (it is not a key of the returned
Assignment), yet it does not appear in the only other returned collection:
no returned component reports the unmatched points. -/
theorem C8_cex_unmatched_not_returned :
    (¬ ∃ n : Point, (((5,5) : Point), n) ∈ (match_shots_to_grid [(0,0),(5,5)] [(0,0)] 1).1) ∧
    ((5,5) : Point) ∉ (match_shots_to_grid [(0,0),(5,5)] [(0,0)] 1).2 := by
  have hR : match_shots_to_grid [(0,0),(5,5)] [(0,0)] 1 = ([((0,0),(0,0))], [(0,0)]) := by
    norm_num [match_shots_to_grid, matchRun, initState, matchStep, bestIdx, unconsumed,
      sort_shots_from_right_bottom_to_left_top, List.insertionSort, List.orderedInsert,
      shotR, dist2]
  rw [hR]
  constructor
  · rintro ⟨n, hn⟩
    simp at hn
  · decide

lemma foldl_assign_extend {grid : List Point} {maxD : ℚ} :
    ∀ (l : List Point) (st : MS),
      ∃ t, (l.foldl (matchStep grid maxD) st).assign = st.assign ++ t ∧
        ∀ pr ∈ t, pr.1 ∈ l := by
  intro l
  induction l with
  | nil => intro st; exact ⟨[], by simp, by simp⟩
  | cons s rest ih =>
    intro st
    obtain ⟨t, ht, htk⟩ := ih (matchStep grid maxD st s)
    rcases matchStep_cases grid maxD st s with ⟨heq, -⟩ | ⟨j, -, -, heq⟩
    · rw [heq] at ht
      exact ⟨t, by rw [List.foldl_cons, heq, ht], fun pr hpr => List.mem_cons_of_mem _ (htk pr hpr)⟩
    · rw [heq] at ht
      refine ⟨(s, j) :: t, by rw [List.foldl_cons, heq, ht]; simp, ?_⟩
      intro pr hpr
      rcases List.mem_cons.mp hpr with rfl | hpr
      · exact List.mem_cons_self _ _
      · exact List.mem_cons_of_mem _ (htk pr hpr)

lemma foldl_assign_within {grid : List Point} {maxD : ℚ} :
    ∀ (l : List Point) (st : MS),
      (∀ pr ∈ st.assign, 0 ≤ maxD ∧ dist2 pr.1 (grid.getD pr.2 (0,0)) ≤ maxD ^ 2) →
      ∀ pr ∈ (l.foldl (matchStep grid maxD) st).assign,
        0 ≤ maxD ∧ dist2 pr.1 (grid.getD pr.2 (0,0)) ≤ maxD ^ 2 := by
  intro l
  induction l with
  | nil => intro st h; exact h
  | cons s rest ih =>
    intro st h
    refine ih _ ?_
    rcases matchStep_cases grid maxD st s with ⟨heq, -⟩ | ⟨j, -, hc, heq⟩
    · rw [heq]; exact h
    · rw [heq]
      intro pr hpr
      rcases List.mem_append.mp hpr with hpr | hpr
      · exact h pr hpr
      · simp at hpr
        rw [hpr]
        exact hc

/-- C2: for every deduplicated source point set, every matched pair of the
Sequential Unique Matcher lies within the distance budget (on squares:
`0 ≤ maxD ∧ dist2 ≤ maxD²`, exactly the real statement `distance ≤ maxD`),
and a source point is unmatched in the final Assignment precisely when, at
its turn in the processing order (state reached after folding the earlier
points), either no unconsumed grid node remains or every unconsumed node —
in particular the nearest one — lies strictly beyond the budget; the
equivalence against the final Assignment shows unmatched points are never
retried later. -/
theorem C2_threshold_and_unmatched (shots grid : List Point) (maxD : ℚ)
    (hnd : shots.Nodup) :
    (∀ pr ∈ (match_shots_to_grid shots grid maxD).1,
        0 ≤ maxD ∧ dist2 pr.1 pr.2 ≤ maxD ^ 2) ∧
    (∀ pre s post,
      sort_shots_from_right_bottom_to_left_top shots = pre ++ s :: post →
      ((¬ ∃ n, (s, n) ∈ (match_shots_to_grid shots grid maxD).1) ↔
        (unconsumed (pre.foldl (matchStep grid maxD) (initState grid)).mask = [] ∨
         ∀ j ∈ unconsumed (pre.foldl (matchStep grid maxD) (initState grid)).mask,
           ¬ (0 ≤ maxD ∧ dist2 s (grid.getD j (0,0)) ≤ maxD ^ 2)))) := by
  constructor
  · intro pr hpr
    simp only [match_shots_to_grid] at hpr
    rcases List.mem_map.mp hpr with ⟨sj, hsj, he⟩
    have := foldl_assign_within _ _ (by simp [initState]) sj hsj
    rw [← he]
    exact this
  · intro pre s post hdecomp
    have hsortnd : (pre ++ s :: post).Nodup := by
      rw [← hdecomp]
      exact ((List.perm_insertionSort shotR shots).nodup_iff).mpr hnd
    have hs_pre : s ∉ pre := by
      rcases List.nodup_append.mp hsortnd with ⟨-, -, hdisj⟩
      intro hmem
      exact hdisj hmem (List.mem_cons_self _ _)
    have hs_post : s ∉ post := by
      rcases List.nodup_append.mp hsortnd with ⟨-, hnd2, -⟩
      exact (List.nodup_cons.mp hnd2).1
    have hfold : (matchRun shots grid maxD).assign =
        (post.foldl (matchStep grid maxD)
          (matchStep grid maxD (pre.foldl (matchStep grid maxD) (initState grid)) s)).assign := by
      simp only [matchRun, hdecomp, List.foldl_append, List.foldl_cons]
    set A := pre.foldl (matchStep grid maxD) (initState grid) with hA
    have hAkeys : ∀ pr ∈ A.assign, pr.1 ∈ pre := by
      intro pr hpr
      obtain ⟨t, ht, htk⟩ := foldl_assign_extend pre (initState grid)
      rw [← hA] at ht
      rw [ht] at hpr
      simp [initState] at hpr
      exact htk pr hpr
    have hkeys_iff : (∃ n, (s, n) ∈ (match_shots_to_grid shots grid maxD).1) ↔
        (∃ sj ∈ (matchRun shots grid maxD).assign, sj.1 = s) := by
      simp only [match_shots_to_grid, List.mem_map]
      constructor
      · rintro ⟨n, ⟨sj, hsj, he⟩⟩
        exact ⟨sj, hsj, congrArg Prod.fst he⟩
      · rintro ⟨sj, hsj, he⟩
        exact ⟨grid.getD sj.2 (0,0), ⟨sj, hsj, by rw [he]⟩⟩
    rcases matchStep_cases grid maxD A s with ⟨heq, hfail⟩ | ⟨j, hb, hc, heq⟩
    · have hnotmatched : ¬ ∃ sj ∈ (matchRun shots grid maxD).assign, sj.1 = s := by
        rintro ⟨sj, hsj, hkey⟩
        rw [hfold, heq] at hsj
        obtain ⟨t, ht, htk⟩ := foldl_assign_extend post A
        rw [ht] at hsj
        rcases List.mem_append.mp hsj with hsj | hsj
        · exact hs_pre (hkey ▸ hAkeys sj hsj)
        · exact hs_post (hkey ▸ htk sj hsj)
      constructor
      · intro _
        exact Or.inr hfail
      · intro _
        rw [hkeys_iff]
        exact hnotmatched
    · have hmatched : ∃ sj ∈ (matchRun shots grid maxD).assign, sj.1 = s := by
        refine ⟨(s, j), ?_, rfl⟩
        rw [hfold, heq]
        obtain ⟨t, ht, htk⟩ := foldl_assign_extend post
          (⟨A.assign ++ [(s, j)], A.mask.set j true, A.nodes ++ [grid.getD j (0,0)]⟩ : MS)
        rw [ht]
        simp
      constructor
      · intro hnot
        exact absurd (hkeys_iff.mpr hmatched) hnot
      · intro hrhs
        exfalso
        rcases hrhs with hempty | hfail
        · rw [hempty] at hb
          simp [bestIdx] at hb
        · exact hfail j (bestIdx_mem hb) hc

/-- Witness for C2 at a concrete input. -/
theorem C2_threshold_and_unmatched_witness :
    ([((0:ℚ),(0:ℚ)), ((5:ℚ),(5:ℚ))] : List Point).Nodup ∧
    ((∀ pr ∈ (match_shots_to_grid [(0,0),(5,5)] [(0,0)] 1).1,
        (0:ℚ) ≤ 1 ∧ dist2 pr.1 pr.2 ≤ 1 ^ 2) ∧
     (∀ pre s post,
       sort_shots_from_right_bottom_to_left_top [(0,0),(5,5)] = pre ++ s :: post →
       ((¬ ∃ n, (s, n) ∈ (match_shots_to_grid [(0,0),(5,5)] [(0,0)] 1).1) ↔
         (unconsumed (pre.foldl (matchStep [(0,0)] 1) (initState [(0,0)])).mask = [] ∨
          ∀ j ∈ unconsumed (pre.foldl (matchStep [(0,0)] 1) (initState [(0,0)])).mask,
            ¬ ((0:ℚ) ≤ 1 ∧ dist2 s (([(0,0)] : List Point).getD j (0,0)) ≤ 1 ^ 2))))) :=
  ⟨by decide, C2_threshold_and_unmatched [(0,0),(5,5)] [(0,0)] 1 (by decide)⟩

/-- C10: when the matching loop assigns a node to the current source point,
the chosen index minimises the distance among the unconsumed grid indices,
and among equidistant minimisers it is the smallest index in original grid
array order (np.argmin returns the first minimum of the remaining nodes,
listed in ascending original index order). -/
theorem C10_tie_broken_by_grid_order (grid : List Point) (maxD : ℚ) (st : MS)
    (s : Point) (j : ℕ)
    (h : (matchStep grid maxD st s).assign = st.assign ++ [(s, j)]) :
    j ∈ unconsumed st.mask ∧
    (∀ i ∈ unconsumed st.mask,
      dist2 s (grid.getD j (0,0)) ≤ dist2 s (grid.getD i (0,0))) ∧
    (∀ i ∈ unconsumed st.mask,
      dist2 s (grid.getD i (0,0)) = dist2 s (grid.getD j (0,0)) → j ≤ i) := by
  rcases matchStep_cases grid maxD st s with ⟨heq, -⟩ | ⟨k, hb, -, heq⟩
  · rw [heq] at h
    have := congrArg List.length h
    simp at this
  · rw [heq] at h
    have hk : k = j := by
      have := List.append_cancel_left h
      simp at this
      exact this
    subst hk
    exact ⟨bestIdx_mem hb, bestIdx_min hb,
      fun i hi he => bestIdx_tie (unconsumed_pairwise _) hb i hi he⟩

/-- Witness for C10 at a concrete input with an exact distance tie. -/
theorem C10_tie_broken_by_grid_order_witness :
    ((matchStep [((0:ℚ),(2:ℚ)),((2:ℚ),(0:ℚ))] 5 (initState [(0,2),(2,0)]) (1,1)).assign =
        (initState [(0,2),(2,0)]).assign ++ [(((1:ℚ),(1:ℚ)), 0)]) ∧
    (0 ∈ unconsumed (initState [(0,2),(2,0)] : MS).mask ∧
     (∀ i ∈ unconsumed (initState [(0,2),(2,0)] : MS).mask,
       dist2 (1,1) (([(0,2),(2,0)] : List Point).getD 0 (0,0)) ≤
         dist2 (1,1) (([(0,2),(2,0)] : List Point).getD i (0,0))) ∧
     (∀ i ∈ unconsumed (initState [(0,2),(2,0)] : MS).mask,
       dist2 (1,1) (([(0,2),(2,0)] : List Point).getD i (0,0)) =
         dist2 (1,1) (([(0,2),(2,0)] : List Point).getD 0 (0,0)) → 0 ≤ i)) := by
  have hEval : (matchStep [((0:ℚ),(2:ℚ)),((2:ℚ),(0:ℚ))] 5 (initState [(0,2),(2,0)]) (1,1)).assign =
      (initState [(0,2),(2,0)]).assign ++ [(((1:ℚ),(1:ℚ)), 0)] := by
    norm_num [matchStep, bestIdx, unconsumed, initState, dist2]
  exact ⟨hEval, C10_tie_broken_by_grid_order [(0,2),(2,0)] 5 (initState [(0,2),(2,0)]) (1,1) 0 hEval⟩

/-- C7 counterexample: on the 3×3 grid at origin with spacing 10, sources
{(1,1),(9,9),(21,21)} and maxDistance 5, the matcher matches all three
points — in particular (9,9) is matched to the grid node (10,10) at
distance √2 (the claimed scenario overlooks that node) — so the claimed
result of exactly 2 matched points with (9,9) unmatched is false. -/
theorem C7_cex_three_points_matched :
    (((9,9), (10,10)) : Point × Point) ∈
      (match_shots_to_grid [(1,1),(9,9),(21,21)]
        [(0,0),(10,0),(20,0),(0,10),(10,10),(20,10),(0,20),(10,20),(20,20)] 5).1 ∧
    (match_shots_to_grid [(1,1),(9,9),(21,21)]
        [(0,0),(10,0),(20,0),(0,10),(10,10),(20,10),(0,20),(10,20),(20,20)] 5).1.length = 3 := by
  have hR : match_shots_to_grid [(1,1),(9,9),(21,21)]
      [(0,0),(10,0),(20,0),(0,10),(10,10),(20,10),(0,20),(10,20),(20,20)] 5 =
      ([((21,21),(20,20)), ((9,9),(10,10)), ((1,1),(0,0))], [(20,20),(10,10),(0,0)]) := by
    norm_num [match_shots_to_grid, matchRun, initState, matchStep, bestIdx, unconsumed,
      sort_shots_from_right_bottom_to_left_top, List.insertionSort, List.orderedInsert,
      shotR, dist2]
  rw [hR]
  constructor
  · simp
  · rfl

/-- C7 (amended): on the 3×3 grid at origin with spacing 10, sources
{(1,1),(9,9),(21,21)} and maxDistance 5, the matcher returns exactly 3
matched points — (21,21)→(20,20), (9,9)→(10,10) and (1,1)→(0,0), in
processing order — and leaves no point unmatched. -/
theorem C7_amended_scenario_result :
    match_shots_to_grid [(1,1),(9,9),(21,21)]
      [(0,0),(10,0),(20,0),(0,10),(10,10),(20,10),(0,20),(10,20),(20,20)] 5 =
      ([((21,21),(20,20)), ((9,9),(10,10)), ((1,1),(0,0))], [(20,20),(10,10),(0,0)]) := by
  norm_num [match_shots_to_grid, matchRun, initState, matchStep, bestIdx, unconsumed,
    sort_shots_from_right_bottom_to_left_top, List.insertionSort, List.orderedInsert,
    shotR, dist2]

/-! ### Lemmas about the Grid Synthesizer -/

lemma pyTrunc_intCast (n : ℤ) : pyTrunc ((n : ℤ) : ℚ) = n := by
  unfold pyTrunc
  split_ifs with h
  · exact Int.floor_intCast n
  · exact Int.ceil_intCast n

lemma pyRound_intCast (n : ℤ) : pyRound ((n : ℤ) : ℚ) = n := by
  unfold pyRound
  rw [Int.floor_intCast]
  norm_num

lemma abs_pyRound_sub_le (q : ℚ) : |((pyRound q : ℤ) : ℚ) - q| ≤ 1/2 := by
  have h0 : ((⌊q⌋ : ℤ) : ℚ) ≤ q := Int.floor_le q
  have h1 : q < ((⌊q⌋ : ℤ) : ℚ) + 1 := Int.lt_floor_add_one q
  unfold pyRound
  split_ifs with hc1 hc2 hc3 <;> rw [abs_le] <;> constructor <;> push_cast <;> linarith

lemma qmin_le_acc : ∀ (l : List ℚ) (a : ℚ), qmin l a ≤ a := by
  intro l
  induction l with
  | nil => intro a; exact le_refl a
  | cons b l ih => intro a; exact le_trans (ih (min a b)) (min_le_left a b)

lemma qmin_le_mem : ∀ (l : List ℚ) (a x : ℚ), x ∈ l → qmin l a ≤ x := by
  intro l
  induction l with
  | nil => intro a x hx; simp at hx
  | cons b l ih =>
    intro a x hx
    rcases List.mem_cons.mp hx with rfl | hx
    · exact le_trans (qmin_le_acc l (min a x)) (min_le_right a x)
    · exact ih (min a b) x hx

lemma acc_le_qmax : ∀ (l : List ℚ) (a : ℚ), a ≤ qmax l a := by
  intro l
  induction l with
  | nil => intro a; exact le_refl a
  | cons b l ih => intro a; exact le_trans (le_max_left a b) (ih (max a b))

lemma mem_le_qmax : ∀ (l : List ℚ) (a x : ℚ), x ∈ l → x ≤ qmax l a := by
  intro l
  induction l with
  | nil => intro a x hx; simp at hx
  | cons b l ih =>
    intro a x hx
    rcases List.mem_cons.mp hx with rfl | hx
    · exact le_trans (le_max_right a x) (acc_le_qmax l (max a x))
    · exact ih (max a b) x hx

lemma qmax_le_bound : ∀ (l : List ℚ) (a B : ℚ), a ≤ B → (∀ x ∈ l, x ≤ B) → qmax l a ≤ B := by
  intro l
  induction l with
  | nil => intro a B ha _; exact ha
  | cons b l ih =>
    intro a B ha hl
    exact ih (max a b) B (max_le ha (hl b (List.mem_cons_self _ _)))
      (fun x hx => hl x (List.mem_cons_of_mem _ hx))

lemma xMin_le_of_mem {g : List Point} {p : Point} (hp : p ∈ g) : xMin g ≤ p.1 := by
  cases g with
  | nil => simp at hp
  | cons q r =>
    rcases List.mem_cons.mp hp with rfl | hp
    · exact qmin_le_acc _ _
    · exact qmin_le_mem _ _ _ (List.mem_map.mpr ⟨p, hp, rfl⟩)

lemma le_xMax_of_mem {g : List Point} {p : Point} (hp : p ∈ g) : p.1 ≤ xMax g := by
  cases g with
  | nil => simp at hp
  | cons q r =>
    rcases List.mem_cons.mp hp with rfl | hp
    · exact acc_le_qmax _ _
    · exact mem_le_qmax _ _ _ (List.mem_map.mpr ⟨p, hp, rfl⟩)

lemma yMin_le_of_mem {g : List Point} {p : Point} (hp : p ∈ g) : yMin g ≤ p.2 := by
  cases g with
  | nil => simp at hp
  | cons q r =>
    rcases List.mem_cons.mp hp with rfl | hp
    · exact qmin_le_acc _ _
    · exact qmin_le_mem _ _ _ (List.mem_map.mpr ⟨p, hp, rfl⟩)

lemma le_yMax_of_mem {g : List Point} {p : Point} (hp : p ∈ g) : p.2 ≤ yMax g := by
  cases g with
  | nil => simp at hp
  | cons q r =>
    rcases List.mem_cons.mp hp with rfl | hp
    · exact acc_le_qmax _ _
    · exact mem_le_qmax _ _ _ (List.mem_map.mpr ⟨p, hp, rfl⟩)

lemma xMax_le_of_bound {g : List Point} {B : ℚ} (hg : g ≠ [])
    (h : ∀ p ∈ g, p.1 ≤ B) : xMax g ≤ B := by
  cases g with
  | nil => exact absurd rfl hg
  | cons q r =>
    refine qmax_le_bound _ _ _ (h q (List.mem_cons_self _ _)) ?_
    intro x hx
    rcases List.mem_map.mp hx with ⟨p, hp, rfl⟩
    exact h p (List.mem_cons_of_mem _ hp)

lemma yMax_le_of_bound {g : List Point} {B : ℚ} (hg : g ≠ [])
    (h : ∀ p ∈ g, p.2 ≤ B) : yMax g ≤ B := by
  cases g with
  | nil => exact absurd rfl hg
  | cons q r =>
    refine qmax_le_bound _ _ _ (h q (List.mem_cons_self _ _)) ?_
    intro x hx
    rcases List.mem_map.mp hx with ⟨p, hp, rfl⟩
    exact h p (List.mem_cons_of_mem _ hp)

lemma mem_gridNodes {xs ys : List ℤ} {p : Point} :
    p ∈ gridNodes xs ys ↔
      ∃ x : ℤ, x ∈ xs ∧ ∃ y : ℤ, y ∈ ys ∧ p = ((x : ℚ), (y : ℚ)) := by
  unfold gridNodes
  constructor
  · intro hp
    rcases List.mem_flatten.mp hp with ⟨row, hrow, hprow⟩
    rcases List.mem_map.mp hrow with ⟨y, hy, rfl⟩
    rcases List.mem_map.mp hprow with ⟨x, hx, rfl⟩
    exact ⟨x, hx, y, hy, rfl⟩
  · rintro ⟨x, hx, y, hy, rfl⟩
    exact List.mem_flatten.mpr ⟨xs.map fun (x : ℤ) => ((x : ℚ), (y : ℚ)),
      List.mem_map.mpr ⟨y, hy, rfl⟩, List.mem_map.mpr ⟨x, hx, rfl⟩⟩

lemma gridNodes_length (xs ys : List ℤ) :
    (gridNodes xs ys).length = ys.length * xs.length := by
  induction ys with
  | nil => simp [gridNodes]
  | cons y ys ih =>
    simp only [gridNodes, List.map_cons, List.flatten_cons, List.length_append,
      List.length_map] at ih ⊢
    rw [ih]
    simp [List.length_cons]
    ring

lemma gridNodes_getD (xs : List ℤ) : ∀ (ys : List ℤ) (r c : ℕ),
    r < ys.length → c < xs.length →
    (gridNodes xs ys).getD (r * xs.length + c) (0,0) =
      ((xs.getD c 0 : ℚ), (ys.getD r 0 : ℚ)) := by
  intro ys
  induction ys with
  | nil => intro r c hr _; simp at hr
  | cons y ys ih =>
    intro r c hr hc
    have hrow : gridNodes xs (y :: ys) =
        (xs.map fun (x : ℤ) => ((x : ℚ), (y : ℚ))) ++ gridNodes xs ys := by
      simp [gridNodes]
    cases r with
    | zero =>
      rw [hrow]
      simp only [Nat.zero_mul, Nat.zero_add]
      rw [List.getD_eq_getElem?_getD, List.getElem?_append_left (by simpa using hc),
        List.getElem?_map, List.getElem?_eq_getElem hc]
      simp only [Option.map_some, Option.getD_some, List.getD_cons_zero]
      rw [List.getD_eq_getElem?_getD, List.getElem?_eq_getElem hc]
      rfl
    | succ r =>
      rw [hrow, List.getD_eq_getElem?_getD]
      have hidx : (r + 1) * xs.length + c =
          (xs.map fun (x : ℤ) => ((x : ℚ), (y : ℚ))).length + (r * xs.length + c) := by
        simp [List.length_map]
        ring
      rw [hidx, List.getElem?_append_right (Nat.le_add_right _ _), Nat.add_sub_cancel_left,
        ← List.getD_eq_getElem?_getD]
      rw [ih r c (Nat.lt_of_succ_lt_succ hr) hc]
      simp [List.getD_cons_succ]

lemma getD_map_range (n : ℕ) (f : ℕ → ℤ) {c : ℕ} (hc : c < n) :
    ((List.range n).map f).getD c 0 = f c := by
  rw [List.getD_eq_getElem?_getD, List.getElem?_map, List.getElem?_range hc]
  rfl

/-- C4 counterexample: on the reference set {(-5/2,-5/2),(5/2,5/2)} with both
spacings 5/2, the spec lattice is anchored at (floor(-5/2), floor(-5/2)) =
(-3,-3), but `regularize_coordinates` anchors at int(-5/2) = -2 (truncation
toward zero) and truncates every generated coordinate to int32, so the
spec-described node (-3,-3) is not a node of the generated grid. -/
theorem C4_cex_anchor_not_floor :
    (((-3 : ℚ), (-3 : ℚ)) : Point) ∈ specSynthGrid [(-5/2,-5/2),(5/2,5/2)] (5/2) (5/2) ∧
    (((-3 : ℚ), (-3 : ℚ)) : Point) ∉ regularize_coordinates [(-5/2,-5/2),(5/2,5/2)] (5/2) (5/2) := by
  have h1 : specSynthGrid [(-5/2,-5/2),(5/2,5/2)] (5/2) (5/2) =
      [(-3,-3),(-1/2,-3),(2,-3),(-3,-1/2),(-1/2,-1/2),(2,-1/2),(-3,2),(-1/2,2),(2,2)] := by
    norm_num [specSynthGrid, colsOf, rowsOf, xMin, xMax, yMin, yMax, qmin, qmax, pyRound,
      List.range_succ, intToNatLit, ceil_eq_neg_floor]
  have h2 : regularize_coordinates [(-5/2,-5/2),(5/2,5/2)] (5/2) (5/2) =
      [(-2,-2),(0,-2),(3,-2),(-2,0),(0,0),(3,0),(-2,3),(0,3),(3,3)] := by
    norm_num [regularize_coordinates, gridNodes, gridXs, gridYs, colsOf, rowsOf,
      xMin, xMax, yMin, yMax, qmin, qmax, pyTrunc, pyRound, List.range_succ, intToNatLit,
      ceil_eq_neg_floor]
  rw [h1, h2]
  constructor
  · simp
  · intro hmem
    simp [Prod.ext_iff] at hmem
    rcases hmem with h | h | h | h | h | h | h | h | h <;> norm_num at h

/-- C4 (amended): for every non-empty reference set and positive spacings,
`regularize_coordinates` produces exactly the rows×cols lattice with
cols = round((xmax-xmin)/colSpacing)+1 and rows = round((ymax-ymin)/rowSpacing)+1
(round = Python round-half-to-even), anchored at
(ox, oy) = (int(xmin), int(ymin)) — truncation toward zero, not floor — with
the node at row r, column c equal to (int32(ox + c·cs), int32(oy + r·rs)),
each coordinate truncated toward zero, enumerated row-major. -/
theorem C4_amended_truncated_lattice (coords : List Point) (rs cs : ℚ)
    (hne : coords ≠ []) (hrs : 0 < rs) (hcs : 0 < cs) :
    (regularize_coordinates coords rs cs).length = rowsOf coords rs * colsOf coords cs ∧
    ∀ r c : ℕ, r < rowsOf coords rs → c < colsOf coords cs →
      (regularize_coordinates coords rs cs).getD (r * colsOf coords cs + c) (0,0) =
        (((pyTrunc ((pyTrunc (xMin coords) : ℚ) + (c : ℚ) * cs) : ℤ) : ℚ),
         ((pyTrunc ((pyTrunc (yMin coords) : ℚ) + (r : ℚ) * rs) : ℤ) : ℚ)) := by
  have hxl : (gridXs coords cs).length = colsOf coords cs := by
    simp [gridXs]
  have hyl : (gridYs coords rs).length = rowsOf coords rs := by
    simp [gridYs]
  constructor
  · rw [regularize_coordinates, gridNodes_length, hxl, hyl]
  · intro r c hr hc
    rw [regularize_coordinates]
    have h := gridNodes_getD (gridXs coords cs) (gridYs coords rs) r c
      (by rw [hyl]; exact hr) (by rw [hxl]; exact hc)
    rw [hxl] at h
    rw [h]
    rw [gridXs, getD_map_range _ _ (by rw [← hxl]; simpa [gridXs] using hc)]
    rw [gridYs, getD_map_range _ _ (by rw [← hyl]; simpa [gridYs] using hr)]

/-- Witness for C4 (amended) at a concrete input. -/
theorem C4_amended_truncated_lattice_witness :
    ([((0:ℚ),(0:ℚ))] : List Point) ≠ [] ∧ (0:ℚ) < 1 ∧ (0:ℚ) < 1 ∧
    ((regularize_coordinates [(0,0)] 1 1).length = rowsOf [(0,0)] 1 * colsOf [(0,0)] 1 ∧
     ∀ r c : ℕ, r < rowsOf [(0,0)] 1 → c < colsOf [(0,0)] 1 →
       (regularize_coordinates [(0,0)] 1 1).getD (r * colsOf [(0,0)] 1 + c) (0,0) =
         (((pyTrunc ((pyTrunc (xMin [(0,0)]) : ℚ) + (c : ℚ) * 1) : ℤ) : ℚ),
          ((pyTrunc ((pyTrunc (yMin [(0,0)]) : ℚ) + (r : ℚ) * 1) : ℤ) : ℚ))) :=
  ⟨by decide, by decide, by decide,
    C4_amended_truncated_lattice [(0,0)] 1 1 (by decide) (by decide) (by decide)⟩

lemma ratio_int (a k s : ℤ) (hs : s ≠ 0) :
    (((a + k * s : ℤ) : ℚ) - (a : ℚ)) / (s : ℚ) = ((k : ℤ) : ℚ) := by
  have hs' : (s : ℚ) ≠ 0 := Int.cast_ne_zero.mpr hs
  push_cast
  field_simp

lemma colsOf_of_int {coords : List Point} {cs ax : ℤ} {kx : ℕ} (hcs : 0 < cs)
    (hxmin : xMin coords = (ax : ℚ)) (hxmax : xMax coords = ((ax + kx * cs : ℤ) : ℚ)) :
    colsOf coords (cs : ℚ) = kx + 1 := by
  have h1 : (xMax coords - xMin coords) / (cs : ℚ) = ((kx : ℤ) : ℚ) := by
    rw [hxmax, hxmin]
    exact ratio_int ax kx cs (ne_of_gt hcs)
  rw [colsOf, h1, pyRound_intCast]
  simp

lemma rowsOf_of_int {coords : List Point} {rs ay : ℤ} {ky : ℕ} (hrs : 0 < rs)
    (hymin : yMin coords = (ay : ℚ)) (hymax : yMax coords = ((ay + ky * rs : ℤ) : ℚ)) :
    rowsOf coords (rs : ℚ) = ky + 1 := by
  have h1 : (yMax coords - yMin coords) / (rs : ℚ) = ((ky : ℤ) : ℚ) := by
    rw [hymax, hymin]
    exact ratio_int ay ky rs (ne_of_gt hrs)
  rw [rowsOf, h1, pyRound_intCast]
  simp

lemma gridXs_of_int {coords : List Point} {cs ax : ℤ} {kx : ℕ} (hcs : 0 < cs)
    (hxmin : xMin coords = (ax : ℚ)) (hxmax : xMax coords = ((ax + kx * cs : ℤ) : ℚ)) :
    gridXs coords (cs : ℚ) = (List.range (kx + 1)).map (fun (i : ℕ) => ax + (i : ℤ) * cs) := by
  rw [gridXs, colsOf_of_int hcs hxmin hxmax]
  refine List.map_congr_left ?_
  intro i _
  rw [hxmin, pyTrunc_intCast]
  have : ((ax : ℤ) : ℚ) + (i : ℚ) * ((cs : ℤ) : ℚ) = ((ax + (i : ℤ) * cs : ℤ) : ℚ) := by
    push_cast
    ring
  rw [this, pyTrunc_intCast]

lemma gridYs_of_int {coords : List Point} {rs ay : ℤ} {ky : ℕ} (hrs : 0 < rs)
    (hymin : yMin coords = (ay : ℚ)) (hymax : yMax coords = ((ay + ky * rs : ℤ) : ℚ)) :
    gridYs coords (rs : ℚ) = (List.range (ky + 1)).map (fun (i : ℕ) => ay + (i : ℤ) * rs) := by
  rw [gridYs, rowsOf_of_int hrs hymin hymax]
  refine List.map_congr_left ?_
  intro i _
  rw [hymin, pyTrunc_intCast]
  have : ((ay : ℤ) : ℚ) + (i : ℚ) * ((rs : ℤ) : ℚ) = ((ay + (i : ℤ) * rs : ℤ) : ℚ) := by
    push_cast
    ring
  rw [this, pyTrunc_intCast]

/-- C5 counterexample: for the reference set {(0,0),(10,10)} with spacings
(7,7), `round(10/7) = 1` shrinks the lattice to 2×2 with maximum corner
(7,7), so the generated grid's bounding box does not contain the reference
bounding box. -/
theorem C5_cex_bbox_not_contained :
    ¬ bboxContains (regularize_coordinates [(0,0),(10,10)] 7 7) [(0,0),(10,10)] := by
  have h2 : regularize_coordinates [(0,0),(10,10)] 7 7 = [(0,0),(7,0),(0,7),(7,7)] := by
    norm_num [regularize_coordinates, gridNodes, gridXs, gridYs, colsOf, rowsOf,
      xMin, xMax, yMin, yMax, qmin, qmax, pyTrunc, pyRound, List.range_succ, intToNatLit,
      ceil_eq_neg_floor]
  rw [h2]
  rintro ⟨-, hx, -, -⟩
  norm_num [xMax, qmax] at hx

/-- C5 (amended): when the bounding-box minima of the reference set are
integers and the side lengths are exact positive multiples of the (integer)
spacings, the generated grid's bounding box contains the reference bounding
box, and dropping the last row (resp. last column) of the lattice makes the
containment fail.  (The original claim, for arbitrary reference sets, is
refuted by `C5_cex_bbox_not_contained`: the rounding in cols/rows and the
truncated anchor can place the grid strictly inside the reference box.) -/
theorem C5_amended_tight_cover (coords : List Point) (cs rs ax ay : ℤ) (kx ky : ℕ)
    (hcs : 0 < cs) (hrs : 0 < rs) (hkx : 0 < kx) (hky : 0 < ky)
    (hxmin : xMin coords = (ax : ℚ)) (hymin : yMin coords = (ay : ℚ))
    (hxmax : xMax coords = ((ax + kx * cs : ℤ) : ℚ))
    (hymax : yMax coords = ((ay + ky * rs : ℤ) : ℚ)) :
    bboxContains (regularize_coordinates coords (rs : ℚ) (cs : ℚ)) coords ∧
    ¬ bboxContains (gridNodes (gridXs coords (cs : ℚ)) ((gridYs coords (rs : ℚ)).dropLast))
        coords ∧
    ¬ bboxContains (gridNodes ((gridXs coords (cs : ℚ)).dropLast) (gridYs coords (rs : ℚ)))
        coords := by
  have hgx := gridXs_of_int hcs hxmin hxmax
  have hgy := gridYs_of_int hrs hymin hymax
  have hx_anchor : (ax : ℤ) ∈ gridXs coords (cs : ℚ) := by
    rw [hgx]
    refine List.mem_map.mpr ⟨0, List.mem_range.mpr (Nat.succ_pos _), ?_⟩
    simp
  have hy_anchor : (ay : ℤ) ∈ gridYs coords (rs : ℚ) := by
    rw [hgy]
    refine List.mem_map.mpr ⟨0, List.mem_range.mpr (Nat.succ_pos _), ?_⟩
    simp
  have hx_top : (ax + kx * cs : ℤ) ∈ gridXs coords (cs : ℚ) := by
    rw [hgx]
    exact List.mem_map.mpr ⟨kx, List.mem_range.mpr (Nat.lt_succ_self _), rfl⟩
  have hy_top : (ay + ky * rs : ℤ) ∈ gridYs coords (rs : ℚ) := by
    rw [hgy]
    exact List.mem_map.mpr ⟨ky, List.mem_range.mpr (Nat.lt_succ_self _), rfl⟩
  refine ⟨⟨?_, ?_, ?_, ?_⟩, ?_, ?_⟩
  · rw [hxmin]
    exact xMin_le_of_mem (mem_gridNodes.mpr ⟨ax, hx_anchor, ay, hy_anchor, rfl⟩)
  · rw [hxmax]
    exact le_xMax_of_mem (mem_gridNodes.mpr ⟨ax + kx * cs, hx_top, ay, hy_anchor, rfl⟩)
  · rw [hymin]
    exact yMin_le_of_mem (mem_gridNodes.mpr ⟨ax, hx_anchor, ay, hy_anchor, rfl⟩)
  · rw [hymax]
    exact le_yMax_of_mem (mem_gridNodes.mpr ⟨ax, hx_anchor, ay + ky * rs, hy_top, rfl⟩)
  · rintro ⟨-, -, -, hy⟩
    have hdrop : (gridYs coords (rs : ℚ)).dropLast =
        (List.range ky).map (fun (i : ℕ) => ay + (i : ℤ) * rs) := by
      rw [hgy, List.range_succ, List.map_append]
      simp
    have hne : gridNodes (gridXs coords (cs : ℚ)) ((gridYs coords (rs : ℚ)).dropLast) ≠ [] := by
      intro hnil
      have hlen := gridNodes_length (gridXs coords (cs : ℚ)) ((gridYs coords (rs : ℚ)).dropLast)
      rw [hnil, hdrop, hgx] at hlen
      simp [List.length_map, List.length_range] at hlen
      have hpos : 0 < ky * (kx + 1) := Nat.mul_pos hky (Nat.succ_pos kx)
      omega
    have hbound : ∀ p ∈ gridNodes (gridXs coords (cs : ℚ)) ((gridYs coords (rs : ℚ)).dropLast),
        p.2 ≤ (ay : ℚ) + ((ky : ℚ) - 1) * (rs : ℚ) := by
      intro p hp
      rcases mem_gridNodes.mp hp with ⟨x, -, y, hy2, rfl⟩
      rw [hdrop] at hy2
      rcases List.mem_map.mp hy2 with ⟨i, hi, rfl⟩
      have hi' : (i : ℚ) ≤ (ky : ℚ) - 1 := by
        have : (i : ℚ) + 1 ≤ (ky : ℚ) := by
          exact_mod_cast Nat.succ_le_of_lt (List.mem_range.mp hi)
        linarith
      have hrs' : (0 : ℚ) < (rs : ℚ) := by exact_mod_cast hrs
      push_cast
      nlinarith
    have hymax' : yMax coords ≤ (ay : ℚ) + ((ky : ℚ) - 1) * (rs : ℚ) :=
      le_trans hy (yMax_le_of_bound hne hbound)
    rw [hymax] at hymax'
    have hrs' : (0 : ℚ) < (rs : ℚ) := by exact_mod_cast hrs
    have hky' : (1 : ℚ) ≤ (ky : ℚ) := by exact_mod_cast Nat.succ_le_of_lt hky
    push_cast at hymax'
    nlinarith
  · rintro ⟨-, hx, -, -⟩
    have hdrop : (gridXs coords (cs : ℚ)).dropLast =
        (List.range kx).map (fun (i : ℕ) => ax + (i : ℤ) * cs) := by
      rw [hgx, List.range_succ, List.map_append]
      simp
    have hne : gridNodes ((gridXs coords (cs : ℚ)).dropLast) (gridYs coords (rs : ℚ)) ≠ [] := by
      intro hnil
      have hlen := gridNodes_length ((gridXs coords (cs : ℚ)).dropLast) (gridYs coords (rs : ℚ))
      rw [hnil, hdrop, hgy] at hlen
      simp [List.length_map, List.length_range] at hlen
      have hpos : 0 < (ky + 1) * kx := Nat.mul_pos (Nat.succ_pos ky) hkx
      omega
    have hbound : ∀ p ∈ gridNodes ((gridXs coords (cs : ℚ)).dropLast) (gridYs coords (rs : ℚ)),
        p.1 ≤ (ax : ℚ) + ((kx : ℚ) - 1) * (cs : ℚ) := by
      intro p hp
      rcases mem_gridNodes.mp hp with ⟨x, hx2, y, -, rfl⟩
      rw [hdrop] at hx2
      rcases List.mem_map.mp hx2 with ⟨i, hi, rfl⟩
      have hi' : (i : ℚ) ≤ (kx : ℚ) - 1 := by
        have : (i : ℚ) + 1 ≤ (kx : ℚ) := by
          exact_mod_cast Nat.succ_le_of_lt (List.mem_range.mp hi)
        linarith
      have hcs' : (0 : ℚ) < (cs : ℚ) := by exact_mod_cast hcs
      push_cast
      nlinarith
    have hxmax' : xMax coords ≤ (ax : ℚ) + ((kx : ℚ) - 1) * (cs : ℚ) :=
      le_trans hx (xMax_le_of_bound hne hbound)
    rw [hxmax] at hxmax'
    have hcs' : (0 : ℚ) < (cs : ℚ) := by exact_mod_cast hcs
    have hkx' : (1 : ℚ) ≤ (kx : ℚ) := by exact_mod_cast Nat.succ_le_of_lt hkx
    push_cast at hxmax'
    nlinarith

/-- Witness for C5 (amended) at a concrete input. -/
theorem C5_amended_tight_cover_witness :
    xMin [((0:ℚ),(0:ℚ)),((2:ℚ),(2:ℚ))] = ((0:ℤ) : ℚ) ∧
    yMin [((0:ℚ),(0:ℚ)),((2:ℚ),(2:ℚ))] = ((0:ℤ) : ℚ) ∧
    xMax [((0:ℚ),(0:ℚ)),((2:ℚ),(2:ℚ))] = ((0 + (2:ℕ) * 1 : ℤ) : ℚ) ∧
    yMax [((0:ℚ),(0:ℚ)),((2:ℚ),(2:ℚ))] = ((0 + (2:ℕ) * 1 : ℤ) : ℚ) ∧
    (bboxContains
        (regularize_coordinates [((0:ℚ),(0:ℚ)),((2:ℚ),(2:ℚ))] ((1:ℤ) : ℚ) ((1:ℤ) : ℚ))
        [((0:ℚ),(0:ℚ)),((2:ℚ),(2:ℚ))] ∧
     ¬ bboxContains
        (gridNodes (gridXs [((0:ℚ),(0:ℚ)),((2:ℚ),(2:ℚ))] ((1:ℤ) : ℚ))
          ((gridYs [((0:ℚ),(0:ℚ)),((2:ℚ),(2:ℚ))] ((1:ℤ) : ℚ)).dropLast))
        [((0:ℚ),(0:ℚ)),((2:ℚ),(2:ℚ))] ∧
     ¬ bboxContains
        (gridNodes ((gridXs [((0:ℚ),(0:ℚ)),((2:ℚ),(2:ℚ))] ((1:ℤ) : ℚ)).dropLast)
          (gridYs [((0:ℚ),(0:ℚ)),((2:ℚ),(2:ℚ))] ((1:ℤ) : ℚ)))
        [((0:ℚ),(0:ℚ)),((2:ℚ),(2:ℚ))]) := by
  have hxmin : xMin [((0:ℚ),(0:ℚ)),((2:ℚ),(2:ℚ))] = ((0:ℤ) : ℚ) := by
    norm_num [xMin, qmin]
  have hymin : yMin [((0:ℚ),(0:ℚ)),((2:ℚ),(2:ℚ))] = ((0:ℤ) : ℚ) := by
    norm_num [yMin, qmin]
  have hxmax : xMax [((0:ℚ),(0:ℚ)),((2:ℚ),(2:ℚ))] = ((0 + (2:ℕ) * 1 : ℤ) : ℚ) := by
    norm_num [xMax, qmax]
  have hymax : yMax [((0:ℚ),(0:ℚ)),((2:ℚ),(2:ℚ))] = ((0 + (2:ℕ) * 1 : ℤ) : ℚ) := by
    norm_num [yMax, qmax]
  exact ⟨hxmin, hymin, hxmax, hymax,
    C5_amended_tight_cover [((0:ℚ),(0:ℚ)),((2:ℚ),(2:ℚ))] 1 1 0 0 2 2
      (by decide) (by decide) (by decide) (by decide) hxmin hymin hxmax hymax⟩

/-- C9: the final integer validation of `regularize_coordinates`
(`np.all(reg_coords == reg_coords.astype(np.int32))`, line 101) is vacuous:
the grid coordinates are already materialised as int32 (truncated) values, so
the check succeeds on every input and the NonIntegerGrid error can never be
raised.  On the failing input coords={(0,0),(5,0)}, rowSpacing=1,
colSpacing=5/2, the intended lattice coordinate ox + 1·colSpacing = 5/2 is
not an integer, yet the synthesizer silently returns the truncated grid
[(0,0),(2,0),(5,0)] and the check passes. -/
theorem C9_integer_check_vacuous :
    (∀ (coords : List Point) (rs cs : ℚ),
      allIntegerCheck (regularize_coordinates coords rs cs) = true) ∧
    regularize_coordinates [(0,0),(5,0)] 1 (5/2) = [(0,0),(2,0),(5,0)] ∧
    (∀ z : ℤ,
      ((pyTrunc (xMin [((0:ℚ),(0:ℚ)),((5:ℚ),(0:ℚ))]) : ℤ) : ℚ) + 1 * (5/2 : ℚ) ≠ (z : ℚ)) := by
  refine ⟨?_, ?_, ?_⟩
  · intro coords rs cs
    rw [allIntegerCheck, List.all_eq_true]
    intro p hp
    rcases mem_gridNodes.mp hp with ⟨x, -, y, -, rfl⟩
    simp only [pyTrunc_intCast]
    simp
  · norm_num [regularize_coordinates, gridNodes, gridXs, gridYs, colsOf, rowsOf,
      xMin, xMax, yMin, yMax, qmin, qmax, pyTrunc, pyRound, List.range_succ, intToNatLit,
      ceil_eq_neg_floor]
  · intro z h
    have hx : pyTrunc (xMin [((0:ℚ),(0:ℚ)),((5:ℚ),(0:ℚ))]) = 0 := by
      norm_num [xMin, qmin, pyTrunc]
    rw [hx] at h
    norm_num at h
    have h2 : (2 : ℚ) * (z : ℚ) = 5 := by linarith
    have h3 : (2 * z : ℤ) = 5 := by exact_mod_cast h2
    omega

/-! ### Lemmas about the Offset-Align Matcher -/

lemma nearestIdx_spec {grid : List Point} (hg : grid ≠ []) (p : Point) :
    nearestIdx grid p < grid.length ∧
    ∀ i < grid.length,
      dist2 p (grid.getD (nearestIdx grid p) (0,0)) ≤ dist2 p (grid.getD i (0,0)) := by
  cases hb : bestIdx p grid (List.range grid.length) with
  | none =>
    have hnil := bestIdx_eq_none.mp hb
    rw [List.range_eq_nil] at hnil
    exact absurd (List.length_eq_zero.mp hnil) hg
  | some j =>
    have hidx : nearestIdx grid p = j := by rw [nearestIdx, hb]; rfl
    constructor
    · rw [hidx]
      exact List.mem_range.mp (bestIdx_mem hb)
    · intro i hi
      rw [hidx]
      exact bestIdx_min hb i (List.mem_range.mpr hi)

lemma nearestNode_mem {grid : List Point} (hg : grid ≠ []) (p : Point) :
    nearestNode grid p ∈ grid := by
  have h := (nearestIdx_spec hg p).1
  rw [nearestNode, List.getD_eq_getElem?_getD, List.getElem?_eq_getElem h]
  exact List.getElem_mem h

lemma nearestNode_min {grid : List Point} (hg : grid ≠ []) (p : Point) :
    ∀ g ∈ grid, dist2 p (nearestNode grid p) ≤ dist2 p g := by
  intro g hgmem
  rcases List.mem_iff_getElem.mp hgmem with ⟨i, hi, rfl⟩
  have h := (nearestIdx_spec hg p).2 i hi
  rw [nearestNode]
  calc dist2 p (grid.getD (nearestIdx grid p) (0,0)) ≤ dist2 p (grid.getD i (0,0)) := h
    _ = dist2 p grid[i] := by
        rw [List.getD_eq_getElem?_getD, List.getElem?_eq_getElem hi]
        rfl

/-- C6: for every non-empty movable point set and non-empty grid, the
Offset-Align Matcher computes the offset as the componentwise rounding
(`np.round`, half-to-even — in particular a nearest integer: it differs from
the exact centroid difference by at most 1/2 in each component) of
centroid(grid) − centroid(movable); it shifts every movable point by that
offset and maps each shifted point to a nearest node of the full, unmodified
grid (total, no removal, hence possibly many-to-one), and the emitted
distance list — from which the reported maximum and mean are taken — is
exactly the list of nearest-node distances of all shifted points. -/
theorem C6_offset_align_matcher (movable grid : List Point)
    (hm : movable ≠ []) (hg : grid ≠ []) :
    (matchWithOffset movable grid).1 =
      (pyRound ((centroid grid).1 - (centroid movable).1),
       pyRound ((centroid grid).2 - (centroid movable).2)) ∧
    |(((matchWithOffset movable grid).1.1 : ℤ) : ℚ) -
        ((centroid grid).1 - (centroid movable).1)| ≤ 1/2 ∧
    |(((matchWithOffset movable grid).1.2 : ℤ) : ℚ) -
        ((centroid grid).2 - (centroid movable).2)| ≤ 1/2 ∧
    (∀ q ∈ movable,
      (shiftBy (matchWithOffset movable grid).1 q,
        nearestNode grid (shiftBy (matchWithOffset movable grid).1 q)) ∈
          (matchWithOffset movable grid).2.1) ∧
    (∀ pr ∈ (matchWithOffset movable grid).2.1,
      pr.2 ∈ grid ∧ ∀ g ∈ grid, dist2 pr.1 pr.2 ≤ dist2 pr.1 g) ∧
    (matchWithOffset movable grid).2.2 =
      (matchWithOffset movable grid).2.1.map (fun pr => dist2 pr.1 pr.2) := by
  refine ⟨rfl, ?_, ?_, ?_, ?_, ?_⟩
  · exact abs_pyRound_sub_le _
  · exact abs_pyRound_sub_le _
  · intro q hq
    simp only [matchWithOffset, List.mem_map]
    exact ⟨_, ⟨q, hq, rfl⟩, rfl⟩
  · intro pr hpr
    simp only [matchWithOffset, List.mem_map] at hpr
    rcases hpr with ⟨p, -, rfl⟩
    exact ⟨nearestNode_mem hg _, nearestNode_min hg _⟩
  · simp only [matchWithOffset, List.map_map]
    rfl

/-- Witness for C6 at a concrete input. -/
theorem C6_offset_align_matcher_witness :
    ([((0:ℚ),(0:ℚ))] : List Point) ≠ [] ∧ ([((3:ℚ),(4:ℚ))] : List Point) ≠ [] ∧
    ((matchWithOffset [(0,0)] [(3,4)]).1 =
      (pyRound ((centroid [(3,4)]).1 - (centroid [(0,0)]).1),
       pyRound ((centroid [(3,4)]).2 - (centroid [(0,0)]).2)) ∧
    |(((matchWithOffset [(0,0)] [(3,4)]).1.1 : ℤ) : ℚ) -
        ((centroid [(3,4)]).1 - (centroid [(0,0)]).1)| ≤ 1/2 ∧
    |(((matchWithOffset [(0,0)] [(3,4)]).1.2 : ℤ) : ℚ) -
        ((centroid [(3,4)]).2 - (centroid [(0,0)]).2)| ≤ 1/2 ∧
    (∀ q ∈ ([((0:ℚ),(0:ℚ))] : List Point),
      (shiftBy (matchWithOffset [(0,0)] [(3,4)]).1 q,
        nearestNode [(3,4)] (shiftBy (matchWithOffset [(0,0)] [(3,4)]).1 q)) ∈
          (matchWithOffset [(0,0)] [(3,4)]).2.1) ∧
    (∀ pr ∈ (matchWithOffset [(0,0)] [(3,4)]).2.1,
      pr.2 ∈ ([((3:ℚ),(4:ℚ))] : List Point) ∧
      ∀ g ∈ ([((3:ℚ),(4:ℚ))] : List Point), dist2 pr.1 pr.2 ≤ dist2 pr.1 g) ∧
    (matchWithOffset [(0,0)] [(3,4)]).2.2 =
      (matchWithOffset [(0,0)] [(3,4)]).2.1.map (fun pr => dist2 pr.1 pr.2)) :=
  ⟨by decide, by decide, C6_offset_align_matcher [(0,0)] [(3,4)] (by decide) (by decide)⟩
